import Mathlib

/-!
Verification development for the social-deduction game engine
(`templates/social_deduction_game`), covering the victory-condition DSL of
`flex_social_deduction.py` and the turn-orchestration core of `sdg_core.py`.

All definitions are shallow embeddings translated from the Python source.
Machine floats of the source are modelled as exact rationals (`ℚ`); the
claims under study only exercise values where the two agree.
-/

namespace Flex

/-! ### Character-level helpers for `check_victory`
`check_victory` substitutes counter values into the rule string with
`re.sub(fr"\b{k}\b", str(v), expr)` and then deletes every character outside
the class `[0-9A-Za-z><=+\-*/ ()]` before handing the string to Python's
`eval`. -/

/-- ASCII range test on characters, via code points. -/
def charBetween (lo hi c : Char) : Bool :=
  lo.toNat ≤ c.toNat && c.toNat ≤ hi.toNat

/-- ASCII digit. -/
def isDigitCh (c : Char) : Bool := charBetween '0' '9' c

/-- ASCII letter. -/
def isAlphaCh (c : Char) : Bool :=
  charBetween 'A' 'Z' c || charBetween 'a' 'z' c

/-- The character class kept by the sanitiser
`re.sub(r"[^0-9A-Za-z><=+\-*/ ()]", "", expr)` in `check_victory`
(flex_social_deduction.py line 320). -/
def keepChar (c : Char) : Bool :=
  isDigitCh c || isAlphaCh c ||
    (c = '>' || c = '<' || c = '=' || c = '+' || c = '-' || c = '*' ||
     c = '/' || c = ' ' || c = '(' || c = ')')

/-- The sanitiser: delete every character outside the keep class. -/
def sanitize (s : String) : String := ⟨s.data.filter keepChar⟩

/-- Python regex word character (`\w`), restricted to ASCII.  The counter
names appearing in the game specs are ASCII words, for which this matches
`re`'s word-boundary semantics. -/
def isWordChar (c : Char) : Bool := isDigitCh c || isAlphaCh c || c = '_'

/-- Does an optional preceding character allow a `\b` boundary before a
word-character key? -/
def boundaryOk : Option Char → Bool
  | none => true
  | some c => !isWordChar c

/-- Worker for `re.sub(fr"\b{key}\b", val, s)` with a word-shaped key:
scan left to right, replacing non-overlapping whole-word occurrences.
`prev` is the character immediately before the scan position; `fuel`
bounds the recursion (one unit per consumed character). -/
def substWordGo (key val : List Char) : Nat → Option Char → List Char → List Char
  | 0, _, l => l
  | _ + 1, _, [] => []
  | fuel + 1, prev, c :: cs =>
    if key ≠ [] && boundaryOk prev && key.isPrefixOf (c :: cs) &&
        boundaryOk (((c :: cs).drop key.length).head?) then
      val ++ substWordGo key val fuel (some (key.getLastD 'A')) ((c :: cs).drop key.length)
    else
      c :: substWordGo key val fuel (some c) cs

/-- `re.sub(fr"\b{key}\b", val, s)` for a key made of word characters
(the shape of every team label and counter name in the specs). -/
def substWord (key val s : String) : String :=
  ⟨substWordGo key.data val.data s.data.length none s.data⟩

/-! ### Meta values and dict operations -/

/-- A value stored in the free-form `meta` mapping.  The engine stores
integer counters and string decks there; other scalar shapes are not
exercised by any claim. -/
inductive MetaVal
  | int (z : Int)
  | strs (l : List String)
  deriving DecidableEq, Repr

/-- Python `str(v)` for the two modelled meta shapes. -/
def MetaVal.pyStr : MetaVal → String
  | .int z => toString z
  | .strs l =>
      "[" ++ String.intercalate ", " (l.map (fun s => "'" ++ s ++ "'")) ++ "]"

/-- First-match association-list lookup (Python `d[k]` / `d.get(k)`). -/
def alookup (k : String) : List (String × MetaVal) → Option MetaVal
  | [] => none
  | (k₁, v) :: r => if k₁ = k then some v else alookup k r

/-- One step of Python `dict.update`: assign key `kv.1` in place if present,
otherwise append it. -/
def upsert (d : List (String × MetaVal)) (kv : String × MetaVal) :
    List (String × MetaVal) :=
  if d.any (fun p => p.1 = kv.1) then
    d.map (fun p => if p.1 = kv.1 then kv else p)
  else d ++ [kv]

/-- Python `d.update(u)` on insertion-ordered dicts. -/
def dupdate (d u : List (String × MetaVal)) : List (String × MetaVal) :=
  u.foldl upsert d

/-! ### The counter namespace of `check_victory` -/

/-- Private per-player record (`PrivateState` in flex_social_deduction.py). -/
structure PrivInfo where
  role : String
  team : String
  abilities : List String
  deriving DecidableEq, Repr

/-- Public game state (`PublicState`): the fields `check_victory` and the
main loop read.  The message log is kept as plain strings. -/
structure FlexState where
  msgs : List String
  turn : Nat
  alive : List String
  meta : List (String × MetaVal)
  deriving Repr

/-- Add one living member of team `t` to the counts dict
(`counts[priv[p]["team"]] = counts.get(..., 0) + 1`). -/
def bumpTeam (counts : List (String × MetaVal)) (t : String) :
    List (String × MetaVal) :=
  match alookup t counts with
  | some (.int n) => counts.map (fun p => if p.1 = t then (t, .int (n + 1)) else p)
  | some v => counts.map (fun p => if p.1 = t then (t, v) else p)
  | none => counts ++ [(t, .int 1)]

/-- Living participants grouped by team label (first loop of
`check_victory`). -/
def teamCounts (alive : List String) (priv : String → PrivInfo) :
    List (String × MetaVal) :=
  alive.foldl (fun cs p => bumpTeam cs (priv p).team) []

/-- The counter namespace used by `check_victory`: team counts, then
`counts.update(state["meta"])`. -/
def victoryCounts (st : FlexState) (priv : String → PrivInfo) :
    List (String × MetaVal) :=
  dupdate (teamCounts st.alive priv) st.meta

/-- Substitute every counter (in dict order) into the rule string. -/
def substAll (counts : List (String × MetaVal)) (expr : String) : String :=
  counts.foldl (fun e kv => substWord kv.1 kv.2.pyStr e) expr

/-- The exact string handed to `eval` for one team's rule: substitution
followed by the character filter. -/
def victoryEvalString (st : FlexState) (priv : String → PrivInfo)
    (rule : String) : String :=
  sanitize (substAll (victoryCounts st priv) rule)

/-! ### A model of Python `eval` on sanitised victory expressions

`check_victory` calls `eval(expr)` on the sanitised string.  The model
covers the fragment of Python reachable through the character filter:
integer literals, identifiers, `True`/`False`/`None`, parentheses, call
syntax, unary `+ -` and `not`, binary `+ - * / // **`, comparison chains
over `== < <= > >=`, and `and`/`or` with short-circuiting.  Numbers
(ints, floats and bools, with `True == 1`) are modelled as exact
rationals; any name lookup fails with a `NameError` (the source runs
`eval` with no bound names; Python builtins, which a sanitised expression
can still reference, are not modelled — no spec claim depends on them).
Parse errors and runtime errors are both `.error`, matching the blanket
`except` in `check_victory`. -/

/-- Tokens of the sanitised expression language. -/
inductive Tok
  | int (n : Nat)
  | ident (s : String)
  | kwAnd | kwOr | kwNot | kwTrue | kwFalse | kwNone
  | lp | rp
  | plus | minus | star | slash | dstar | dslash
  | ltT | leT | gtT | geT | eqT
  deriving DecidableEq, Repr

/-- Numeric value of a digit run. -/
def digitsToNat (ds : List Char) : Nat :=
  ds.foldl (fun a c => a * 10 + (c.toNat - 48)) 0

/-- Map a letter run to a keyword or identifier token. -/
def wordTok (s : String) : Tok :=
  if s = "and" then .kwAnd
  else if s = "or" then .kwOr
  else if s = "not" then .kwNot
  else if s = "True" then .kwTrue
  else if s = "False" then .kwFalse
  else if s = "None" then .kwNone
  else .ident s

/-- Lexer worker; consumes at least one character per fuel unit. -/
def lexGo : Nat → List Char → Except Unit (List Tok)
  | 0, l => if l = [] then .ok [] else .error ()
  | _ + 1, [] => .ok []
  | fuel + 1, c :: cs =>
    if c = ' ' then lexGo fuel cs
    else if isDigitCh c then
      let ds := c :: cs.takeWhile isDigitCh
      let rest := cs.dropWhile isDigitCh
      -- Python 3: a nonzero digit after a leading zero, or a letter glued
      -- to a number, is a SyntaxError ("invalid decimal literal").
      if c = '0' && ds.any (fun d => d ≠ '0') then .error ()
      else if rest.head?.elim false isAlphaCh then .error ()
      else do
        let ts ← lexGo fuel rest
        pure (.int (digitsToNat ds) :: ts)
    else if isAlphaCh c then
      let ws := c :: cs.takeWhile isWordChar
      let rest := cs.dropWhile isWordChar
      do
        let ts ← lexGo fuel rest
        pure (wordTok ⟨ws⟩ :: ts)
    else if c = '(' then do pure (.lp :: (← lexGo fuel cs))
    else if c = ')' then do pure (.rp :: (← lexGo fuel cs))
    else if c = '+' then do pure (.plus :: (← lexGo fuel cs))
    else if c = '-' then do pure (.minus :: (← lexGo fuel cs))
    else if c = '*' then
      match cs with
      | '*' :: cs₁ => do pure (.dstar :: (← lexGo fuel cs₁))
      | _ => do pure (.star :: (← lexGo fuel cs))
    else if c = '/' then
      match cs with
      | '/' :: cs₁ => do pure (.dslash :: (← lexGo fuel cs₁))
      | _ => do pure (.slash :: (← lexGo fuel cs))
    else if c = '<' then
      match cs with
      | '=' :: cs₁ => do pure (.leT :: (← lexGo fuel cs₁))
      | _ => do pure (.ltT :: (← lexGo fuel cs))
    else if c = '>' then
      match cs with
      | '=' :: cs₁ => do pure (.geT :: (← lexGo fuel cs₁))
      | _ => do pure (.gtT :: (← lexGo fuel cs))
    else if c = '=' then
      match cs with
      | '=' :: cs₁ => do pure (.eqT :: (← lexGo fuel cs₁))
      | _ => .error ()   -- bare '=' is a SyntaxError inside eval
    else .error ()

/-- Tokenise a string (SyntaxError ⇒ `.error`). -/
def lex (s : String) : Except Unit (List Tok) := lexGo s.data.length s.data

/-- Comparison operators. -/
inductive COp
  | ceq | clt | cle | cgt | cge
  deriving DecidableEq, Repr

/-- Abstract syntax of the evaluable fragment.  Comparison chains are
desugared by the parser into `and`-chains (`a < b < c` ⇒
`(a < b) and (b < c)`), which has the same value and error behaviour for
the effect-free operands of this fragment. -/
inductive PExpr
  | lit (q : ℚ)
  | noneLit
  | ident (s : String)
  | call0 (f : PExpr)
  | call1 (f a : PExpr)
  | neg (e : PExpr)
  | poz (e : PExpr)
  | notE (e : PExpr)
  | add (a b : PExpr)
  | sub (a b : PExpr)
  | mul (a b : PExpr)
  | div (a b : PExpr)
  | fdiv (a b : PExpr)
  | pow (a b : PExpr)
  | andE (a b : PExpr)
  | orE (a b : PExpr)
  | cmpE (op : COp) (a b : PExpr)
  deriving DecidableEq, Repr

/-- Comparison operator of a token, if any. -/
def cmpOpOf : Tok → Option COp
  | .eqT => some .ceq
  | .ltT => some .clt
  | .leT => some .cle
  | .gtT => some .cgt
  | .geT => some .cge
  | _ => none

/-! Recursive-descent parser over the token list, following Python's
expression grammar restricted to the tokens above.  `fuel` strictly
decreases on every call; `pyEval` supplies enough fuel for any input. -/

mutual

/-- `or_test`. -/
def pOr : Nat → List Tok → Except Unit (PExpr × List Tok)
  | 0, _ => .error ()
  | fuel + 1, ts => do
    let (a, ts₁) ← pAnd fuel ts
    pOrRest fuel a ts₁

/-- Trailing `or` clauses (left-associative). -/
def pOrRest : Nat → PExpr → List Tok → Except Unit (PExpr × List Tok)
  | 0, _, _ => .error ()
  | fuel + 1, acc, .kwOr :: ts => do
    let (b, ts₁) ← pAnd fuel ts
    pOrRest fuel (.orE acc b) ts₁
  | _ + 1, acc, ts => .ok (acc, ts)

/-- `and_test`. -/
def pAnd : Nat → List Tok → Except Unit (PExpr × List Tok)
  | 0, _ => .error ()
  | fuel + 1, ts => do
    let (a, ts₁) ← pNot fuel ts
    pAndRest fuel a ts₁

/-- Trailing `and` clauses (left-associative). -/
def pAndRest : Nat → PExpr → List Tok → Except Unit (PExpr × List Tok)
  | 0, _, _ => .error ()
  | fuel + 1, acc, .kwAnd :: ts => do
    let (b, ts₁) ← pNot fuel ts
    pAndRest fuel (.andE acc b) ts₁
  | _ + 1, acc, ts => .ok (acc, ts)

/-- `not_test`. -/
def pNot : Nat → List Tok → Except Unit (PExpr × List Tok)
  | 0, _ => .error ()
  | fuel + 1, .kwNot :: ts => do
    let (e, ts₁) ← pNot fuel ts
    .ok (.notE e, ts₁)
  | fuel + 1, ts => pCmp fuel ts

/-- `comparison`: an arithmetic expression followed by a (possibly empty)
chain of comparisons. -/
def pCmp : Nat → List Tok → Except Unit (PExpr × List Tok)
  | 0, _ => .error ()
  | fuel + 1, ts => do
    let (a, ts₁) ← pArith fuel ts
    pCmpRest fuel none a ts₁

/-- Comparison chain: `acc` is the conjunction built so far, `prev` the
right operand of the previous comparison (`a < b < c` desugars to
`(a < b) and (b < c)`). -/
def pCmpRest : Nat → Option PExpr → PExpr → List Tok →
    Except Unit (PExpr × List Tok)
  | 0, _, _, _ => .error ()
  | fuel + 1, acc, prev, t :: ts =>
    match cmpOpOf t with
    | some op => do
      let (b, ts₁) ← pArith fuel ts
      let c := PExpr.cmpE op prev b
      pCmpRest fuel (some (acc.elim c (fun a => .andE a c))) b ts₁
    | none => .ok (acc.elim prev id, t :: ts)
  | _ + 1, acc, prev, [] => .ok (acc.elim prev id, [])

/-- `a_expr`: additive level. -/
def pArith : Nat → List Tok → Except Unit (PExpr × List Tok)
  | 0, _ => .error ()
  | fuel + 1, ts => do
    let (a, ts₁) ← pTerm fuel ts
    pArithRest fuel a ts₁

/-- Trailing `+`/`-` clauses (left-associative). -/
def pArithRest : Nat → PExpr → List Tok → Except Unit (PExpr × List Tok)
  | 0, _, _ => .error ()
  | fuel + 1, acc, .plus :: ts => do
    let (b, ts₁) ← pTerm fuel ts
    pArithRest fuel (.add acc b) ts₁
  | fuel + 1, acc, .minus :: ts => do
    let (b, ts₁) ← pTerm fuel ts
    pArithRest fuel (.sub acc b) ts₁
  | _ + 1, acc, ts => .ok (acc, ts)

/-- `m_expr`: multiplicative level. -/
def pTerm : Nat → List Tok → Except Unit (PExpr × List Tok)
  | 0, _ => .error ()
  | fuel + 1, ts => do
    let (a, ts₁) ← pFactor fuel ts
    pTermRest fuel a ts₁

/-- Trailing `*`/`/`/`//` clauses (left-associative). -/
def pTermRest : Nat → PExpr → List Tok → Except Unit (PExpr × List Tok)
  | 0, _, _ => .error ()
  | fuel + 1, acc, .star :: ts => do
    let (b, ts₁) ← pFactor fuel ts
    pTermRest fuel (.mul acc b) ts₁
  | fuel + 1, acc, .slash :: ts => do
    let (b, ts₁) ← pFactor fuel ts
    pTermRest fuel (.div acc b) ts₁
  | fuel + 1, acc, .dslash :: ts => do
    let (b, ts₁) ← pFactor fuel ts
    pTermRest fuel (.fdiv acc b) ts₁
  | _ + 1, acc, ts => .ok (acc, ts)

/-- `u_expr`: unary level. -/
def pFactor : Nat → List Tok → Except Unit (PExpr × List Tok)
  | 0, _ => .error ()
  | fuel + 1, .plus :: ts => do
    let (e, ts₁) ← pFactor fuel ts
    .ok (.poz e, ts₁)
  | fuel + 1, .minus :: ts => do
    let (e, ts₁) ← pFactor fuel ts
    .ok (.neg e, ts₁)
  | fuel + 1, ts => pPower fuel ts

/-- `power`: `**` is right-associative with a unary-level right operand. -/
def pPower : Nat → List Tok → Except Unit (PExpr × List Tok)
  | 0, _ => .error ()
  | fuel + 1, ts => do
    let (a, ts₁) ← pAtomTr fuel ts
    match ts₁ with
    | .dstar :: ts₂ => do
      let (b, ts₃) ← pFactor fuel ts₂
      .ok (.pow a b, ts₃)
    | _ => .ok (a, ts₁)

/-- Primary: an atom followed by call trailers. -/
def pAtomTr : Nat → List Tok → Except Unit (PExpr × List Tok)
  | 0, _ => .error ()
  | fuel + 1, ts => do
    let (a, ts₁) ← pAtom fuel ts
    pTrailers fuel a ts₁

/-- Call trailers `f(...)` (at most one argument: the sanitiser removed
commas, so multi-argument calls cannot be spelled). -/
def pTrailers : Nat → PExpr → List Tok → Except Unit (PExpr × List Tok)
  | 0, _, _ => .error ()
  | fuel + 1, acc, .lp :: .rp :: ts => pTrailers fuel (.call0 acc) ts
  | fuel + 1, acc, .lp :: ts => do
    let (arg, ts₁) ← pOr fuel ts
    match ts₁ with
    | .rp :: ts₂ => pTrailers fuel (.call1 acc arg) ts₂
    | _ => .error ()
  | _ + 1, acc, ts => .ok (acc, ts)

/-- Atom: literal, name, or parenthesised expression. -/
def pAtom : Nat → List Tok → Except Unit (PExpr × List Tok)
  | 0, _ => .error ()
  | _ + 1, .int n :: ts => .ok (.lit n, ts)
  | _ + 1, .kwTrue :: ts => .ok (.lit 1, ts)
  | _ + 1, .kwFalse :: ts => .ok (.lit 0, ts)
  | _ + 1, .kwNone :: ts => .ok (.noneLit, ts)
  | _ + 1, .ident s :: ts => .ok (.ident s, ts)
  | fuel + 1, .lp :: ts => do
    let (e, ts₁) ← pOr fuel ts
    match ts₁ with
    | .rp :: ts₂ => .ok (e, ts₂)
    | _ => .error ()
  | _ + 1, _ => .error ()

end

/-! ### Evaluation -/

/-- Runtime values: Python ints, floats and bools conflated into exact
rationals (`True == 1` in Python), plus `None`. -/
inductive PyVal
  | num (q : ℚ)
  | pynone
  deriving DecidableEq, Repr

/-- Python truthiness of the modelled values. -/
def truthy : PyVal → Bool
  | .num q => decide (q ≠ 0)
  | .pynone => false

/-- Require a number (`TypeError` otherwise). -/
def evalNum : PyVal → Except Unit ℚ
  | .num q => .ok q
  | .pynone => .error ()

/-- Integer power with Python's `ZeroDivisionError` on `0 ** negative`. -/
def qpow (q : ℚ) (n : Int) : Except Unit ℚ :=
  if 0 ≤ n then .ok (q ^ n.toNat)
  else if q = 0 then .error ()
  else .ok ((q ^ (-n).toNat)⁻¹)

/-- One comparison step. -/
def evalCmp (op : COp) (a b : PyVal) : Except Unit PyVal :=
  match op, a, b with
  | .ceq, .num x, .num y => .ok (.num (if x = y then 1 else 0))
  | .ceq, .pynone, .pynone => .ok (.num 1)
  | .ceq, _, _ => .ok (.num 0)
  | .clt, .num x, .num y => .ok (.num (if x < y then 1 else 0))
  | .cle, .num x, .num y => .ok (.num (if x ≤ y then 1 else 0))
  | .cgt, .num x, .num y => .ok (.num (if y < x then 1 else 0))
  | .cge, .num x, .num y => .ok (.num (if y ≤ x then 1 else 0))
  | _, _, _ => .error ()   -- ordering against None is a TypeError

/-- Evaluator.  Any name is a `NameError` (no namespace is passed to
`eval`); nothing evaluable in the model is callable; `and`/`or`
short-circuit as in Python. -/
def evalE : PExpr → Except Unit PyVal
  | .lit q => .ok (.num q)
  | .noneLit => .ok .pynone
  | .ident _ => .error ()
  | .call0 f => do
    let _ ← evalE f
    .error ()
  | .call1 f a => do
    let _ ← evalE f
    let _ ← evalE a
    .error ()
  | .neg e => do
    let q ← evalNum (← evalE e)
    .ok (.num (-q))
  | .poz e => do
    let q ← evalNum (← evalE e)
    .ok (.num q)
  | .notE e => do
    let v ← evalE e
    .ok (.num (if truthy v then 0 else 1))
  | .add a b => do
    let x ← evalNum (← evalE a)
    let y ← evalNum (← evalE b)
    .ok (.num (x + y))
  | .sub a b => do
    let x ← evalNum (← evalE a)
    let y ← evalNum (← evalE b)
    .ok (.num (x - y))
  | .mul a b => do
    let x ← evalNum (← evalE a)
    let y ← evalNum (← evalE b)
    .ok (.num (x * y))
  | .div a b => do
    let x ← evalNum (← evalE a)
    let y ← evalNum (← evalE b)
    if y = 0 then .error () else .ok (.num (x / y))
  | .fdiv a b => do
    let x ← evalNum (← evalE a)
    let y ← evalNum (← evalE b)
    if y = 0 then .error () else .ok (.num ((Rat.floor (x / y) : Int) : ℚ))
  | .pow a b => do
    let x ← evalNum (← evalE a)
    let y ← evalNum (← evalE b)
    if y.den = 1 then do
      let r ← qpow x y.num
      .ok (.num r)
    else .error ()   -- fractional exponent: a float root, outside the model
  | .andE a b => do
    let va ← evalE a
    if truthy va then evalE b else .ok va
  | .orE a b => do
    let va ← evalE a
    if truthy va then .ok va else evalE b
  | .cmpE op a b => do
    let va ← evalE a
    let vb ← evalE b
    evalCmp op va vb

/-- The model of `eval(expr)` on a sanitised victory expression:
tokenise, parse a single expression consuming all input, evaluate. -/
def pyEval (s : String) : Except Unit PyVal := do
  let ts ← lex s
  let (e, rest) ← pOr (32 * (ts.length + 1)) ts
  if rest = [] then evalE e else .error ()

/-! ### `check_victory` -/

/-- The victory part of the game spec: one expression per team, in
declaration order (`spec["victory"].items()`). -/
structure GameSpec where
  victory : List (String × String)
  deriving Repr

/-- Outcome of evaluating one team's substituted, sanitised rule. -/
def teamRuleValue (st : FlexState) (priv : String → PrivInfo)
    (rule : String) : Except Unit PyVal :=
  pyEval (victoryEvalString st priv rule)

/-- `check_victory` (flex_social_deduction.py lines 311–326): build the
counter namespace, then return the first team whose substituted rule
evaluates truthy; evaluation errors skip the team. -/
def check_victory (st : FlexState) (priv : String → PrivInfo)
    (spec : GameSpec) : Option String :=
  spec.victory.findSome? fun tr =>
    match teamRuleValue st priv tr.2 with
    | .ok v => if truthy v then some tr.1 else none
    | .error _ => none

/-! ### Ability phase and main loop of flex_social_deduction.py -/

/-- The `"ability"` phase handler `_ph_ability` (lines 303–308): compute
the living users that hold the ability, then call the registered
handler — and do nothing at all when no handler is registered (the
`if abil in ability_handlers:` guard has no `else`).  The ability name
is the `ph_cfg["ability"]` entry of the phase configuration; a handler
is an arbitrary plugin function of the state and the user subset. -/
def ph_ability (abilityHandlers : String → Option (FlexState → List String → FlexState))
    (priv : String → PrivInfo) (abil : String) (st : FlexState) : FlexState :=
  let users := st.alive.filter (fun p => (priv p).abilities.contains abil)
  match abilityHandlers abil with
  | some f => f st users
  | none => st

/-- One GM directive as produced by `_ph_gm`'s oracle call (the
`js_dict`, including the fallback used when the oracle errors).  The
deck-manipulating `engine_cmd` branch only rewrites deck-valued meta
entries and `gm_last_draw`; no claim touches it and it is omitted. -/
structure Directive where
  nextPhase : String
  publicMsg : String
  metaUpdate : List (String × MetaVal)
  deriving Repr

/-- `_ph_gm` (lines 164–247): append the public message, apply the meta
update, then — after the update — force the next phase to
`"timeout_victory"` whenever `meta["turn_limit"]` is set and
`state["turn"] >= turn_limit`, overriding whatever phase the oracle
chose.  Returns the updated state and the next-phase tag.  (A
non-integer `turn_limit` would raise in Python; no claim stores one.) -/
def ph_gm (st : FlexState) (d : Directive) : FlexState × String :=
  let st₁ : FlexState := { st with msgs := st.msgs ++ [d.publicMsg] }
  let st₂ : FlexState := { st₁ with meta := dupdate st₁.meta d.metaUpdate }
  let next :=
    match alookup "turn_limit" st₂.meta with
    | some (.int limit) => if limit ≤ (st₂.turn : Int) then "timeout_victory" else d.nextPhase
    | _ => d.nextPhase
  (st₂, next)

/-- How the engine's `while True:` loop in `main` ends. -/
inductive Outcome
  | win (team : String)   -- `check_victory` named a team; log written, return
  | noPhase               -- `if not phase or phase not in phase_handlers: break`
  | outOfFuel             -- artifact of bounding the unbounded loop
  deriving DecidableEq, Repr

/-- Exit status of the `flex_social_deduction.py` process for each loop
outcome: `main` returns normally in every case (it never calls
`sys.exit`), so the interpreter exits with status 0. -/
def mainExitCode : Outcome → Nat
  | .win _ => 0
  | .noPhase => 0
  | .outOfFuel => 0

/-- The engine loop of `main` (lines 380–396).  Each iteration runs
`_ph_gm` with the next oracle directive, breaks when the returned phase
tag is empty or unregistered, otherwise increments the turn, runs the
registered phase handler, and stops if `check_victory` names a winner.
`dirs k` is the oracle directive consumed by the `k`-th GM call;
`handlers` is the `phase_handlers` registry (handlers abstract over the
LLM and chains arguments). -/
def gameLoop (handlers : String → Option (FlexState → FlexState))
    (priv : String → PrivInfo) (spec : GameSpec) (dirs : Nat → Directive) :
    Nat → Nat → FlexState → Outcome × FlexState
  | 0, _, st => (.outOfFuel, st)
  | fuel + 1, k, st =>
    let (st₁, phase) := ph_gm st (dirs k)
    match (if phase = "" then none else handlers phase) with
    | none => (.noPhase, st₁)
    | some f =>
      let st₂ := f { st₁ with turn := st₁.turn + 1 }
      match check_victory st₂ priv spec with
      | some w => (.win w, { st₂ with msgs := st₂.msgs ++ ["GM: " ++ w ++ " win!"] })
      | none => gameLoop handlers priv spec dirs fuel (k + 1) st₂

end Flex

namespace Core

/-! ## sdg_core.py: decision contract, speaker selection, message routing -/

/-- Parsed JSON values as produced by `SimpleJsonOutputParser`. -/
inductive JVal
  | str (s : String)
  | num (q : ℚ)
  | bool (b : Bool)
  | null
  | arr (l : List JVal)
  | obj (fields : List (String × JVal))

/-- A validated per-round decision (`AgentResponse.model_dump()`). -/
structure Decision where
  bid : ℚ
  msg : String
  toField : String   -- the JSON field `to` (a Lean keyword)
  reason : String
  deriving DecidableEq, Repr

/-- The safe default substituted on any decision failure
(sdg_core.py lines 67–72). -/
def safeDefault : Decision :=
  { bid := 0, msg := "", toField := "ALL", reason := "Error in response generation" }

/-- First value bound to a key in a JSON object. -/
def jlookup (k : String) : List (String × JVal) → Option JVal
  | [] => none
  | (k₁, v) :: r => if k₁ = k then some v else jlookup k r

/-- `AgentResponse(**js)`: pydantic validation of the oracle's JSON.
`bid` must be numeric with `ge=0.0, le=1.0` (out-of-range is a
`ValidationError`, not a clamp), `msg` and `to` must be strings,
`reason` is an optional string defaulting to `""`; extra fields are
ignored.  (Pydantic's lax string-to-number coercion is not modelled; no
claim feeds a string-typed bid.)  `none` models the raised
`ValidationError`, as does a non-object payload (`**js` raising). -/
def validateResponse : JVal → Option Decision
  | .obj fields =>
    match jlookup "bid" fields, jlookup "msg" fields, jlookup "to" fields with
    | some (.num q), some (.str m), some (.str t) =>
      if 0 ≤ q ∧ q ≤ 1 then
        match jlookup "reason" fields with
        | some (.str r) => some { bid := q, msg := m, toField := t, reason := r }
        | none => some { bid := q, msg := m, toField := t, reason := "" }
        | some _ => none
      else none
    | _, _, _ => none
  | _ => none

/-- What one oracle round-trip produced, as seen by `decide_async`. -/
inductive OracleOutcome
  | timeout            -- the awaited call raised (timeout / transport error)
  | invalidJson        -- the JSON parser raised on non-JSON text
  | json (j : JVal)    -- a parsed JSON value

/-- `Agent.decide_async` (sdg_core.py lines 50–72): the whole oracle call
and validation sit inside one `try`; any failure is logged and replaced
by the safe default, so the function always returns a decision and never
raises. -/
def decide_async (o : OracleOutcome) : Decision :=
  match o with
  | .timeout => safeDefault
  | .invalidJson => safeDefault
  | .json j => (validateResponse j).getD safeDefault

/-- A decision failure: the call raised, the text was not JSON, or the
shape validation rejected the payload. -/
def decisionFailure : OracleOutcome → Prop
  | .timeout => True
  | .invalidJson => True
  | .json j => validateResponse j = none

instance : DecidablePred decisionFailure := fun o => by
  cases o with
  | timeout => exact inferInstanceAs (Decidable True)
  | invalidJson => exact inferInstanceAs (Decidable True)
  | json j =>
    exact decidable_of_iff ((validateResponse j).isNone = true)
      (by cases h : validateResponse j <;> simp [decisionFailure, h])

/-- The bid map entering speaker selection
(`bids[agent.name] = float(result["bid"])`). -/
def roundBids (outs : List (String × OracleOutcome)) : List (String × ℚ) :=
  outs.map (fun p => (p.1, (decide_async p.2).bid))

/-! ### Speaker selection (`main_async`, lines 451–456) -/

/-- `max(bids.values())`.  Python raises on an empty dict; the agents
dict always holds the players and the GM, so the empty case (given the
junk value 0) is unreachable in the engine. -/
def maxBid : List (String × ℚ) → ℚ
  | [] => 0
  | b :: r => (r.map Prod.snd).foldl max b.2

/-- `[n for n, b in bids.items() if b == max_bid]`. -/
def maxBidders (bids : List (String × ℚ)) : List String :=
  (bids.filter (fun p => p.2 = maxBid bids)).map Prod.fst

/-- `speaker = "GM" if "GM" in max_bidders else random.choice(max_bidders)`.
`random.choice(seq)` returns `seq[i]` for an index `i` drawn by the
(seedable) generator; the draw is modelled by the `pick` argument, taken
modulo the number of tied bidders.  Returns `none` only on an empty bid
map (where Python's `max` would raise). -/
def selectSpeaker (pick : Nat) (bids : List (String × ℚ)) : Option String :=
  let mb := maxBidders bids
  if mb.contains "GM" then some "GM"
  else mb[pick % mb.length]?

/-! ### Message routing (`main_async`, lines 457–496) -/

/-- One remembered message: `(turn, sender, recipients, text)`. -/
structure MemEntry where
  turn : Nat
  sender : String
  recv : String
  text : String
  deriving DecidableEq, Repr

/-- The logs mutated by the routing step.  `mems` maps an agent name to
its `mem_log`; the engine only ever touches the player names and
`"GM"`.  (Python would raise `KeyError` on a recipient outside the
agents dict; the model keeps `mems` total, and no claim routes to an
unknown name.) -/
structure CoreState where
  mems : String → List MemEntry
  sysMem : List MemEntry
  publicLog : List (Nat × String)
  dmLog : List (Nat × String × String × String)

/-- ASCII whitespace (the shapes `str.strip()` removes in the inputs at
hand). -/
def isSpaceCh (c : Char) : Bool :=
  c = ' ' || c = '\t' || c = '\n' || c = '\r'

/-- Python `s.strip()`. -/
def pyStrip (s : String) : String :=
  ⟨((s.data.dropWhile isSpaceCh).reverse.dropWhile isSpaceCh).reverse⟩

/-- Python `s.split(",")` on character lists: split at every comma. -/
def splitCommaGo : List Char → List (List Char)
  | [] => [[]]
  | c :: cs =>
    match splitCommaGo cs with
    | acc :: rest => if c = ',' then [] :: acc :: rest else (c :: acc) :: rest
    | [] => [[c]]

/-- Python `s.split(",")`. -/
def splitComma (s : String) : List String :=
  (splitCommaGo s.data).map (fun l => ⟨l⟩)

/-- `[x.strip() for x in pkg["to"].split(",")]`. -/
def splitRecipients (toField : String) : List String :=
  (splitComma toField).map pyStrip

/-- `if all(name in recipients for name in names): recipients = ["ALL"]`
— note the code only requires the roster to be CONTAINED in the
recipient list. -/
def normalizeRecipients (names : List String) (rs : List String) : List String :=
  if names.all (fun n => rs.contains n) then ["ALL"] else rs

/-- Append an entry to one agent's memory. -/
def memAppend (mems : String → List MemEntry) (who : String) (e : MemEntry) :
    String → List MemEntry :=
  fun x => if x = who then mems x ++ [e] else mems x

/-- The message-commit step of one round (`main_async` lines 457–496):
strip the winning message, normalise the recipient list, then either
broadcast (public log, every agent incl. GM, the System) or send a DM
(dm log, the sender, each named recipient, the System — and nobody
else).  An empty stripped message commits nothing. -/
def deliver (names : List String) (turn : Nat) (speaker toField msg : String)
    (st : CoreState) : CoreState :=
  let utter := pyStrip msg
  let recipients := normalizeRecipients names (splitRecipients toField)
  if utter = "" then st
  else if recipients.contains "ALL" then
    { st with
      publicLog := st.publicLog ++ [(turn, speaker ++ ": " ++ utter)],
      mems := fun x =>
        if (names ++ ["GM"]).contains x then
          st.mems x ++ [⟨turn, speaker, "ALL", utter⟩]
        else st.mems x,
      sysMem := st.sysMem ++ [⟨turn, speaker, "ALL", utter⟩] }
  else
    let joined := String.intercalate "," recipients
    { st with
      dmLog := st.dmLog ++ recipients.map (fun r => (turn, speaker, r, utter)),
      mems :=
        recipients.foldl
          (fun m r => memAppend m r ⟨turn, speaker, r, utter⟩)
          (memAppend st.mems speaker ⟨turn, speaker, joined, utter⟩),
      sysMem := st.sysMem ++ [⟨turn, speaker, joined, utter⟩] }

/-- A whole sequence of committed rounds: fold `deliver` over
`(turn, speaker, toField, msg)` records. -/
def runDeliver (names : List String) (st : CoreState)
    (steps : List (Nat × String × String × String)) : CoreState :=
  steps.foldl (fun s step => deliver names step.1 step.2.1 step.2.2.1 step.2.2.2 s) st

/-- The entry the System's memory gains from one commit step (`none`
when the stripped message is empty and nothing is committed). -/
def sysEntry (names : List String) (step : Nat × String × String × String) :
    Option MemEntry :=
  let utter := pyStrip step.2.2.2
  let recipients := normalizeRecipients names (splitRecipients step.2.2.1)
  if utter = "" then none
  else if recipients.contains "ALL" then some ⟨step.1, step.2.1, "ALL", utter⟩
  else some ⟨step.1, step.2.1, String.intercalate "," recipients, utter⟩

end Core

namespace Flex

/-! ### Concrete fixtures for the flex engine -/

/-- All-Town private assignment used by the concrete scenarios. -/
def privTown : String → PrivInfo := fun _ => ⟨"Villager", "Town", []⟩

/-- Five living Town members and a spent `Evil` counter in meta: the
counter namespace of `check_victory` is `{Town: 5, Evil: 0}`. -/
def stTown : FlexState := ⟨[], 3, ["P1", "P2", "P3", "P4", "P5"], [("Evil", .int 0)]⟩

/-- A one-player state with empty meta. -/
def stOneTown : FlexState := ⟨[], 0, ["P1"], []⟩

/-- Characters a dedicated minimal victory grammar (integer literals,
parentheses, `+ - * /`, comparisons `== != < <= > >=`, whitespace) could
ever present to its evaluator; letters are excluded because the grammar
has no identifiers. -/
def minimalGrammarChar (c : Char) : Bool :=
  isDigitCh c ||
    (c = '(' || c = ')' || c = '+' || c = '-' || c = '*' || c = '/' ||
     c = '<' || c = '>' || c = '=' || c = '!' || c = ' ')

/-- A phase registry with only `"discussion"` registered (to a handler
that leaves the state unchanged). -/
def handlersDisc : String → Option (FlexState → FlexState) :=
  fun p => if p = "discussion" then some id else none

/-- An oracle that always requests an unregistered phase. -/
def dirsNight : Nat → Directive := fun _ => ⟨"night_phase", "GM: night falls", []⟩

/-- An oracle that always requests `"discussion"` and updates nothing. -/
def dirsDisc : Nat → Directive := fun _ => ⟨"discussion", "GM: discuss", []⟩

/-- Initial state with a configured `turn_limit` of 2. -/
def stLimit2 : FlexState := ⟨[], 0, ["P1"], [("turn_limit", .int 2)]⟩

/-- An ability registry with nothing registered. -/
def noAbilityHandlers : String → Option (FlexState → List String → FlexState) :=
  fun _ => none

end Flex

namespace Core

/-! ### Concrete fixtures for the core -/

/-- Fresh logs: every memory empty. -/
def emptyCore : CoreState := ⟨fun _ => [], [], [], []⟩

/-- An oracle response whose bid 2.0 is out of range (shape otherwise
valid). -/
def jBid2 : JVal :=
  .obj [("bid", .num 2), ("msg", .str "hi"), ("to", .str "ALL"),
        ("reason", .str "r")]

/-- A well-formed oracle response with bid 1. -/
def jOne : JVal :=
  .obj [("bid", .num 1), ("msg", .str "ok"), ("to", .str "ALL"),
        ("reason", .str "")]

/-- A round of oracle outcomes: one valid response, one out-of-range. -/
def outsW : List (String × OracleOutcome) :=
  [("P1", .json jOne), ("P2", .json jBid2)]

/-- Bids with a two-way tie at the top. -/
def bidsW : List (String × ℚ) := [("P1", 1), ("P2", 1), ("P3", 0)]

end Core

namespace Flex

/-! ## Lemmas about the dict model -/

theorem alookup_map_set (k : String) (v : MetaVal) :
    ∀ d : List (String × MetaVal),
      alookup k (d.map (fun p => if p.1 = k then (k, v) else p)) =
        if (alookup k d).isSome then some v else none := by
  intro d
  induction d with
  | nil => rfl
  | cons hd tl ih =>
    simp only [List.map_cons]
    by_cases h : hd.1 = k
    · rw [if_pos h]
      simp [alookup, h]
    · rw [if_neg h]
      simp [alookup, h, ih]

theorem any_key_isSome (k : String) :
    ∀ d : List (String × MetaVal),
      d.any (fun p => p.1 = k) = (alookup k d).isSome := by
  intro d
  induction d with
  | nil => rfl
  | cons hd tl ih =>
    by_cases h : hd.1 = k
    · simp [alookup, h]
    · simp [alookup, h, ih]

theorem alookup_append (k : String) (d l : List (String × MetaVal)) :
    alookup k (d ++ l) =
      match alookup k d with
      | some v => some v
      | none => alookup k l := by
  induction d with
  | nil => rfl
  | cons hd tl ih =>
    by_cases h : hd.1 = k
    · simp [alookup, h]
    · simpa [alookup, h] using ih

theorem alookup_upsert_self (d : List (String × MetaVal)) (k : String) (v : MetaVal) :
    alookup k (upsert d (k, v)) = some v := by
  unfold upsert
  by_cases h : d.any (fun p => p.1 = (k, v).1)
  · rw [if_pos h]
    have := alookup_map_set k v d
    rw [any_key_isSome] at h
    simpa [h] using this
  · rw [if_neg h]
    rw [any_key_isSome] at h
    rw [alookup_append]
    cases hd : alookup k d with
    | none => simp [alookup]
    | some w => simp [hd] at h

theorem alookup_map_keep (k : String) (kv : String × MetaVal) (hk : k ≠ kv.1) :
    ∀ d : List (String × MetaVal),
      alookup k (d.map (fun p => if p.1 = kv.1 then kv else p)) = alookup k d := by
  intro d
  induction d with
  | nil => rfl
  | cons hd tl ih =>
    simp only [List.map_cons]
    by_cases h₁ : hd.1 = kv.1
    · rw [if_pos h₁]
      have hne : ¬ kv.1 = k := fun hh => hk hh.symm
      have hne₁ : ¬ hd.1 = k := by rw [h₁]; exact hne
      simp only [alookup, if_neg hne, if_neg hne₁, ih]
    · rw [if_neg h₁]
      simp only [alookup]
      by_cases h₃ : hd.1 = k
      · simp [h₃]
      · simp only [if_neg h₃, ih]

theorem alookup_upsert_other (d : List (String × MetaVal)) (kv : String × MetaVal)
    (k : String) (hk : k ≠ kv.1) : alookup k (upsert d kv) = alookup k d := by
  unfold upsert
  by_cases h : d.any (fun p => p.1 = kv.1)
  · rw [if_pos h]
    exact alookup_map_keep k kv hk d
  · rw [if_neg h]
    rw [alookup_append]
    have hne : ¬ kv.1 = k := fun hh => hk hh.symm
    cases hd : alookup k d with
    | none => simp [alookup, if_neg hne]
    | some w => simp

theorem alookup_dupdate_notmem (k : String) :
    ∀ (u d : List (String × MetaVal)), ¬ k ∈ u.map Prod.fst →
      alookup k (dupdate d u) = alookup k d := by
  intro u
  induction u with
  | nil => intro d _; rfl
  | cons hd tl ih =>
    intro d hmem
    simp only [List.map_cons, List.mem_cons] at hmem
    push_neg at hmem
    have : dupdate d (hd :: tl) = dupdate (upsert d hd) tl := rfl
    rw [this, ih (upsert d hd) (by simpa using hmem.2),
        alookup_upsert_other d hd k hmem.1]

theorem alookup_dupdate_mem (k : String) (v : MetaVal) :
    ∀ (u d : List (String × MetaVal)), (u.map Prod.fst).Nodup →
      alookup k u = some v → alookup k (dupdate d u) = some v := by
  intro u
  induction u with
  | nil => intro d _ h; cases h
  | cons hd tl ih =>
    intro d hnd h
    simp only [List.map_cons, List.nodup_cons] at hnd
    have hstep : dupdate d (hd :: tl) = dupdate (upsert d hd) tl := rfl
    rw [hstep]
    by_cases hk : hd.1 = k
    · have hv : hd.2 = v := by simpa [alookup, hk] using h
      have hnotin : ¬ k ∈ tl.map Prod.fst := by rw [← hk]; exact hnd.1
      rw [alookup_dupdate_notmem k tl (upsert d hd) hnotin]
      have : (k, v) = hd := by
        cases hd; simp_all
      rw [← this, alookup_upsert_self]
    · have h₁ : alookup k tl = some v := by simpa [alookup, hk] using h
      exact ih (upsert d hd) hnd.2 h₁

/-! ## Claim theorems on the victory DSL -/

/-- C10: the counter namespace of `check_victory` is the living-team
count dict updated with the entire public meta mapping, so a meta entry
whose key equals a team label overwrites that team's living-member count
in every victory evaluation. -/
theorem claim_C10_meta_shadows_counts (st : FlexState) (priv : String → PrivInfo)
    (k : String) (v : MetaVal)
    (hnd : (st.meta.map Prod.fst).Nodup) (h : alookup k st.meta = some v) :
    alookup k (victoryCounts st priv) = some v :=
  alookup_dupdate_mem k v st.meta (teamCounts st.alive priv) hnd h

/-- Witness for C10: two living Town members but `meta["Town"] = 7`; the
namespace binds `Town` to 7 and the substituted rule string shows the
meta value, not the living count 2. -/
theorem claim_C10_witness :
    alookup "Town"
        (victoryCounts ⟨[], 0, ["P1", "P2"], [("Town", .int 7)]⟩ privTown) =
      some (.int 7) ∧
    victoryEvalString ⟨[], 0, ["P1", "P2"], [("Town", .int 7)]⟩ privTown "Town" = "7" :=
  ⟨claim_C10_meta_shadows_counts ⟨[], 0, ["P1", "P2"], [("Town", .int 7)]⟩ privTown
      "Town" (.int 7) (by decide) rfl,
    rfl⟩

/-- C1 counterexample: the claim says the victory evaluator only ever
sees expressions of a minimal identifier-free grammar, but the string
`check_victory` hands to the general-purpose `eval` for the rule
`"abs(Town)"` is `"abs(1)"` — an identifier applied as a function call,
with letters outside the minimal grammar's alphabet. -/
theorem claim_C1_counterexample :
    victoryEvalString stOneTown privTown "abs(Town)" = "abs(1)" ∧
    ("abs(1)".data.all minimalGrammarChar) = false :=
  ⟨rfl, rfl⟩

/-- C1 amended: the only grammar restriction `check_victory` guarantees
before evaluating is the character filter — every character of the
evaluated string lies in the keep-class `0-9A-Za-z><=+- * / ( )` (note
letters pass, so identifiers and builtin calls survive, and `!` is
deleted so `!=` can never be evaluated). -/
theorem claim_C1_sanitizer_guarantee (st : FlexState) (priv : String → PrivInfo)
    (rule : String) :
    ((victoryEvalString st priv rule).data.all keepChar) = true := by
  have hdata : (victoryEvalString st priv rule).data =
      (substAll (victoryCounts st priv) rule).data.filter keepChar := rfl
  rw [hdata, List.all_eq_true]
  intro c hc
  exact List.of_mem_filter hc

/-- C7: `check_victory` returns the first team in declaration order
whose substituted expression evaluates truthy; a team whose evaluation
errors (in particular on an unresolved identifier) or is falsy is
skipped, never fatally; on the `{Town: 5, Evil: 0}` namespace,
`"Evil == 0"` is true and `"Evil >= Town"` is false; and if no team's
expression is truthy the result is `none`. -/
theorem claim_C7_first_true_team :
    (∀ (st : FlexState) (priv : String → PrivInfo) (t r : String)
        (rest : List (String × String)) (v : PyVal),
        teamRuleValue st priv r = .ok v → truthy v = true →
        check_victory st priv ⟨(t, r) :: rest⟩ = some t) ∧
    (∀ (st : FlexState) (priv : String → PrivInfo) (t r : String)
        (rest : List (String × String)),
        (∀ v, teamRuleValue st priv r = .ok v → truthy v = false) →
        check_victory st priv ⟨(t, r) :: rest⟩ = check_victory st priv ⟨rest⟩) ∧
    (teamRuleValue stTown privTown "Evil == 0" = .ok (.num 1) ∧
      truthy (.num 1) = true) ∧
    (teamRuleValue stTown privTown "Evil >= Town" = .ok (.num 0) ∧
      truthy (.num 0) = false) ∧
    teamRuleValue stTown privTown "Ghost == 0" = .error () ∧
    (∀ (st : FlexState) (priv : String → PrivInfo) (spec : GameSpec),
        (∀ tr ∈ spec.victory, ∀ v, teamRuleValue st priv tr.2 = .ok v → truthy v = false) →
        check_victory st priv spec = none) := by
  refine ⟨?_, ?_, ⟨rfl, rfl⟩, ⟨rfl, rfl⟩, rfl, ?_⟩
  · intro st priv t r rest v hv ht
    simp [check_victory, List.findSome?_cons, hv, ht]
  · intro st priv t r rest hv
    cases he : teamRuleValue st priv r with
    | error e => simp [check_victory, List.findSome?_cons, he]
    | ok v => simp [check_victory, List.findSome?_cons, he, hv v he]
  · intro st priv spec h
    obtain ⟨l⟩ := spec
    induction l with
    | nil => rfl
    | cons hd tl ih =>
      have htl : check_victory st priv ⟨tl⟩ = none :=
        ih (fun tr htr v => h tr (by simp [htr]) v)
      cases he : teamRuleValue st priv hd.2 with
      | error e =>
        simpa [check_victory, List.findSome?_cons, he] using htl
      | ok v =>
        simpa [check_victory, List.findSome?_cons, he, h hd (by simp) v he] using htl

/-- Witness for C7: an unresolvable first team is skipped and the second
team, whose expression is true on `{Town: 5, Evil: 0}`, wins. -/
theorem claim_C7_witness :
    check_victory stTown privTown
      ⟨[("TeamC", "Ghost == 0"), ("TeamA", "Evil == 0")]⟩ = some "TeamA" := by
  have hfail : ∀ v, teamRuleValue stTown privTown "Ghost == 0" = .ok v →
      truthy v = false := by
    intro v hv
    have hE : teamRuleValue stTown privTown "Ghost == 0" = .error () := rfl
    rw [hE] at hv
    cases hv
  rw [claim_C7_first_true_team.2.1 stTown privTown "TeamC" "Ghost == 0"
      [("TeamA", "Evil == 0")] hfail]
  exact claim_C7_first_true_team.1 stTown privTown "TeamA" "Evil == 0" [] (.num 1) rfl rfl

end Flex

namespace Flex

/-! ## Lemmas about the engine loop -/

theorem ph_gm_turn (st : FlexState) (d : Directive) : (ph_gm st d).1.turn = st.turn := rfl

theorem ph_gm_meta (st : FlexState) (d : Directive) :
    (ph_gm st d).1.meta = dupdate st.meta d.metaUpdate := rfl

theorem ph_gm_phase_limit (st : FlexState) (d : Directive) (L : Int)
    (h : alookup "turn_limit" (dupdate st.meta d.metaUpdate) = some (.int L)) :
    (ph_gm st d).2 = if L ≤ (st.turn : Int) then "timeout_victory" else d.nextPhase := by
  show (match alookup "turn_limit" (dupdate st.meta d.metaUpdate) with
      | some (.int limit) =>
          if limit ≤ (st.turn : Int) then "timeout_victory" else d.nextPhase
      | _ => d.nextPhase) = _
  rw [h]

theorem gameLoop_succ (handlers : String → Option (FlexState → FlexState))
    (priv : String → PrivInfo) (spec : GameSpec) (dirs : Nat → Directive)
    (fuel k : Nat) (st : FlexState) :
    gameLoop handlers priv spec dirs (fuel + 1) k st =
      match (if (ph_gm st (dirs k)).2 = "" then none
          else handlers (ph_gm st (dirs k)).2) with
      | none => (.noPhase, (ph_gm st (dirs k)).1)
      | some f =>
        match check_victory
            (f { (ph_gm st (dirs k)).1 with turn := (ph_gm st (dirs k)).1.turn + 1 })
            priv spec with
        | some w =>
          (.win w,
            { f { (ph_gm st (dirs k)).1 with turn := (ph_gm st (dirs k)).1.turn + 1 } with
              msgs := (f { (ph_gm st (dirs k)).1 with
                  turn := (ph_gm st (dirs k)).1.turn + 1 }).msgs ++
                ["GM: " ++ w ++ " win!"] })
        | none =>
          gameLoop handlers priv spec dirs fuel (k + 1)
            (f { (ph_gm st (dirs k)).1 with turn := (ph_gm st (dirs k)).1.turn + 1 }) := rfl

theorem gameLoop_reaches_limit (L : Nat)
    (handlers : String → Option (FlexState → FlexState))
    (priv : String → PrivInfo) (spec : GameSpec) (dirs : Nat → Directive)
    (htv : handlers "timeout_victory" = none)
    (hd : ∀ n, ¬ "turn_limit" ∈ (dirs n).metaUpdate.map Prod.fst)
    (hph : ∀ n, (dirs n).nextPhase ≠ "" ∧ (handlers (dirs n).nextPhase).isSome)
    (hh : ∀ ph f, handlers ph = some f → ∀ s : FlexState,
        (f s).turn = s.turn ∧ alookup "turn_limit" (f s).meta = alookup "turn_limit" s.meta)
    (hwin : ∀ s : FlexState, check_victory s priv spec = none) :
    ∀ (fuel k : Nat) (st : FlexState), st.turn ≤ L →
      alookup "turn_limit" st.meta = some (.int L) →
      L + 1 - st.turn ≤ fuel →
      ∃ stF, gameLoop handlers priv spec dirs fuel k st = (.noPhase, stF) ∧
        stF.turn = L := by
  intro fuel
  induction fuel with
  | zero => intro k st h₁ h₂ h₃; omega
  | succ fuel ih =>
    intro k st h₁ h₂ h₃
    have hmeta : alookup "turn_limit" (dupdate st.meta (dirs k).metaUpdate) =
        some (.int L) := by
      rw [alookup_dupdate_notmem _ _ _ (hd k)]
      exact h₂
    by_cases hL : st.turn = L
    · have hphase : (ph_gm st (dirs k)).2 = "timeout_victory" := by
        rw [ph_gm_phase_limit _ _ _ hmeta, if_pos (by omega)]
      refine ⟨(ph_gm st (dirs k)).1, ?_, ?_⟩
      · rw [gameLoop_succ, hphase, if_neg (by decide), htv]
      · rw [ph_gm_turn]
        exact hL
    · have hlt : st.turn < L := Nat.lt_of_le_of_ne h₁ hL
      have hphase : (ph_gm st (dirs k)).2 = (dirs k).nextPhase := by
        rw [ph_gm_phase_limit _ _ _ hmeta, if_neg (by omega)]
      obtain ⟨f, hf⟩ := Option.isSome_iff_exists.mp (hph k).2
      have hmeta₂ : alookup "turn_limit" (f { (ph_gm st (dirs k)).1 with
          turn := (ph_gm st (dirs k)).1.turn + 1 }).meta = some (.int L) := by
        rw [(hh _ f hf _).2]
        show alookup "turn_limit" (ph_gm st (dirs k)).1.meta = _
        rw [ph_gm_meta]
        exact hmeta
      rw [gameLoop_succ]
      simp only [hphase, if_neg (hph k).1, hf, hwin]
      refine ih (k + 1) _ ?_ hmeta₂ ?_
      · rw [(hh _ f hf _).1]
        show (ph_gm st (dirs k)).1.turn + 1 ≤ L
        rw [ph_gm_turn]
        omega
      · rw [(hh _ f hf _).1]
        show L + 1 - ((ph_gm st (dirs k)).1.turn + 1) ≤ fuel
        rw [ph_gm_turn]
        omega

theorem gameLoop_turn_le (L : Nat)
    (handlers : String → Option (FlexState → FlexState))
    (priv : String → PrivInfo) (spec : GameSpec) (dirs : Nat → Directive)
    (htv : handlers "timeout_victory" = none)
    (hd : ∀ n, ¬ "turn_limit" ∈ (dirs n).metaUpdate.map Prod.fst)
    (hh : ∀ ph f, handlers ph = some f → ∀ s : FlexState,
        (f s).turn = s.turn ∧ alookup "turn_limit" (f s).meta = alookup "turn_limit" s.meta) :
    ∀ (fuel k : Nat) (st : FlexState), st.turn ≤ L →
      alookup "turn_limit" st.meta = some (.int L) →
      ((gameLoop handlers priv spec dirs fuel k st).2).turn ≤ L := by
  intro fuel
  induction fuel with
  | zero => intro k st h₁ _; exact h₁
  | succ fuel ih =>
    intro k st h₁ h₂
    have hmeta : alookup "turn_limit" (dupdate st.meta (dirs k).metaUpdate) =
        some (.int L) := by
      rw [alookup_dupdate_notmem _ _ _ (hd k)]
      exact h₂
    rw [gameLoop_succ]
    by_cases hph0 : (ph_gm st (dirs k)).2 = ""
    · simp only [if_pos hph0]
      simpa [ph_gm_turn] using h₁
    · cases hfs : handlers (ph_gm st (dirs k)).2 with
      | none =>
        simp only [if_neg hph0, hfs]
        simpa [ph_gm_turn] using h₁
      | some f =>
        have hlt : st.turn < L := by
          rcases Nat.lt_or_ge st.turn L with h | h
          · exact h
          · exfalso
            have hphase : (ph_gm st (dirs k)).2 = "timeout_victory" := by
              rw [ph_gm_phase_limit _ _ _ hmeta, if_pos (by omega)]
            rw [hphase, htv] at hfs
            cases hfs
        have hmeta₂ : alookup "turn_limit" (f { (ph_gm st (dirs k)).1 with
            turn := (ph_gm st (dirs k)).1.turn + 1 }).meta = some (.int L) := by
          rw [(hh _ f hfs _).2]
          show alookup "turn_limit" (ph_gm st (dirs k)).1.meta = _
          rw [ph_gm_meta]
          exact hmeta
        have hturn₂ : (f { (ph_gm st (dirs k)).1 with
            turn := (ph_gm st (dirs k)).1.turn + 1 }).turn ≤ L := by
          rw [(hh _ f hfs _).1]
          show (ph_gm st (dirs k)).1.turn + 1 ≤ L
          rw [ph_gm_turn]
          omega
        simp only [if_neg hph0, hfs]
        cases hv : check_victory (f { (ph_gm st (dirs k)).1 with
            turn := (ph_gm st (dirs k)).1.turn + 1 }) priv spec with
        | some w =>
          simp only [hv]
          exact hturn₂
        | none =>
          simp only [hv]
          exact ih (k + 1) _ hturn₂ hmeta₂

end Flex

namespace Flex

/-! ## Claim theorems on the engine loop -/

/-- C9: with `meta["turn_limit"] = L` configured (and neither the
oracle's meta updates nor the phase handlers touching it), and no winner
declared by `check_victory`, the engine reaches the forced terminal
no-winner outcome with the turn counter at exactly `L`; the override is
unconditional on the oracle's chosen phase (second conjunct), and under
no circumstances does the turn counter ever pass `L` (third conjunct).
`"timeout_victory"` is registered by nothing in the repository, so the
forced phase always breaks the loop. -/
theorem claim_C9_turn_cap (L : Nat)
    (handlers : String → Option (FlexState → FlexState))
    (priv : String → PrivInfo) (spec : GameSpec) (dirs : Nat → Directive)
    (st0 : FlexState) (fuel : Nat)
    (htv : handlers "timeout_victory" = none)
    (hd : ∀ n, ¬ "turn_limit" ∈ (dirs n).metaUpdate.map Prod.fst)
    (hph : ∀ n, (dirs n).nextPhase ≠ "" ∧ (handlers (dirs n).nextPhase).isSome)
    (hh : ∀ ph f, handlers ph = some f → ∀ s : FlexState,
        (f s).turn = s.turn ∧ alookup "turn_limit" (f s).meta = alookup "turn_limit" s.meta)
    (hwin : ∀ s : FlexState, check_victory s priv spec = none)
    (h0 : st0.turn = 0)
    (hmeta : alookup "turn_limit" st0.meta = some (.int L))
    (hf : L + 1 ≤ fuel) :
    (∃ stF, gameLoop handlers priv spec dirs fuel 0 st0 = (.noPhase, stF) ∧
        stF.turn = L) ∧
    (∀ (st : FlexState) (d : Directive),
        alookup "turn_limit" (dupdate st.meta d.metaUpdate) = some (.int L) →
        (L : Int) ≤ (st.turn : Int) → (ph_gm st d).2 = "timeout_victory") ∧
    (∀ (fuel₁ k : Nat) (st : FlexState), st.turn ≤ L →
        alookup "turn_limit" st.meta = some (.int L) →
        ((gameLoop handlers priv spec dirs fuel₁ k st).2).turn ≤ L) := by
  refine ⟨?_, ?_, ?_⟩
  · exact gameLoop_reaches_limit L handlers priv spec dirs htv hd hph hh hwin fuel 0 st0
      (by omega) hmeta (by omega)
  · intro st d hm hle
    rw [ph_gm_phase_limit _ _ _ hm, if_pos hle]
  · exact gameLoop_turn_le L handlers priv spec dirs htv hd hh

/-- Witness for C9: limit 2, a cooperative oracle that always requests
the registered `"discussion"` phase, no winner — the loop ends in
`noPhase` with the turn counter at exactly 2. -/
theorem claim_C9_witness :
    ∃ stF, gameLoop handlersDisc privTown ⟨[]⟩ dirsDisc 3 0 stLimit2 =
      (.noPhase, stF) ∧ stF.turn = 2 :=
  (claim_C9_turn_cap 2 handlersDisc privTown ⟨[]⟩ dirsDisc stLimit2 3
    (by simp only [handlersDisc]; rw [if_neg (by decide)])
    (fun n => by simp [dirsDisc])
    (fun n => ⟨by simp [dirsDisc], by simp [dirsDisc, handlersDisc]⟩)
    (by
      intro ph f h s
      by_cases hp : ph = "discussion"
      · simp only [handlersDisc, if_pos hp] at h
        cases h
        exact ⟨rfl, rfl⟩
      · simp only [handlersDisc, if_neg hp] at h
        cases h)
    (fun s => rfl)
    rfl
    rfl
    (by omega)).1

/-- C5 counterexample: with no handler registered for the requested
ability `"eliminate"`, `_ph_ability` silently leaves the state unchanged
and raises nothing; and when the GM requests a phase missing from the
registry, the main loop simply ends with no winner, a process exit
status of 0, and no diagnostic — the engine does not abort on either
configuration error. -/
theorem claim_C5_counterexample :
    ph_ability noAbilityHandlers privTown "eliminate" stOneTown = stOneTown ∧
    gameLoop handlersDisc privTown ⟨[]⟩ dirsNight 5 0 stOneTown =
      (.noPhase, ⟨["GM: night falls"], 0, ["P1"], []⟩) ∧
    mainExitCode .noPhase = 0 :=
  ⟨rfl, rfl, rfl⟩

/-- C5 corrected: a requested ability with no registered handler is a
silent no-op (`_ph_ability` returns the state unchanged), and a phase
tag with no registered handler merely breaks the main loop, which
returns normally (exit status 0); neither is treated as a fatal
configuration error. -/
theorem claim_C5_silent_noop :
    (∀ (ah : String → Option (FlexState → List String → FlexState))
        (priv : String → PrivInfo) (abil : String) (st : FlexState),
        ah abil = none → ph_ability ah priv abil st = st) ∧
    (∀ (handlers : String → Option (FlexState → FlexState))
        (priv : String → PrivInfo) (spec : GameSpec) (dirs : Nat → Directive)
        (fuel k : Nat) (st : FlexState),
        handlers (ph_gm st (dirs k)).2 = none →
        gameLoop handlers priv spec dirs (fuel + 1) k st =
          (.noPhase, (ph_gm st (dirs k)).1) ∧
        mainExitCode (gameLoop handlers priv spec dirs (fuel + 1) k st).1 = 0) := by
  constructor
  · intro ah priv abil st h
    unfold ph_ability
    rw [h]
  · intro handlers priv spec dirs fuel k st h
    have hloop : gameLoop handlers priv spec dirs (fuel + 1) k st =
        (.noPhase, (ph_gm st (dirs k)).1) := by
      rw [gameLoop_succ]
      by_cases hph0 : (ph_gm st (dirs k)).2 = ""
      · simp only [if_pos hph0]
      · simp only [if_neg hph0, h]
    exact ⟨hloop, by rw [hloop]; rfl⟩

/-- Witness for C5's corrected statement at concrete inputs: the empty
ability registry no-ops, and an unregistered `"night_phase"` request
ends the loop with exit status 0. -/
theorem claim_C5_witness :
    ph_ability noAbilityHandlers privTown "poison" stTown = stTown ∧
    gameLoop handlersDisc privTown ⟨[]⟩ dirsNight 4 0 stTown =
      (.noPhase, (ph_gm stTown (dirsNight 0)).1) ∧
    mainExitCode (gameLoop handlersDisc privTown ⟨[]⟩ dirsNight 4 0 stTown).1 = 0 := by
  refine ⟨claim_C5_silent_noop.1 noAbilityHandlers privTown "poison" stTown rfl, ?_⟩
  have h := claim_C5_silent_noop.2 handlersDisc privTown ⟨[]⟩ dirsNight 3 0 stTown
    (by simp only [handlersDisc]; rw [if_neg (by decide)])
  exact h

end Flex

namespace Core

/-! ## Lemmas about speaker selection -/

theorem le_foldl_max (l : List ℚ) :
    ∀ a : ℚ, a ≤ l.foldl max a ∧ ∀ x ∈ l, x ≤ l.foldl max a := by
  induction l with
  | nil => intro a; exact ⟨le_refl a, by simp⟩
  | cons hd tl ih =>
    intro a
    rw [List.foldl_cons]
    refine ⟨le_trans (le_max_left a hd) (ih (max a hd)).1, ?_⟩
    intro x hx
    rcases List.mem_cons.mp hx with h | h
    · subst h
      exact le_trans (le_max_right a x) (ih (max a x)).1
    · exact (ih (max a hd)).2 x h

theorem foldl_max_mem (l : List ℚ) :
    ∀ a : ℚ, l.foldl max a = a ∨ l.foldl max a ∈ l := by
  induction l with
  | nil => intro a; left; rfl
  | cons hd tl ih =>
    intro a
    rw [List.foldl_cons]
    rcases ih (max a hd) with h | h
    · rcases max_choice a hd with hm | hm
      · left; rw [h, hm]
      · right; rw [h, hm]; exact List.mem_cons_self hd tl
    · right; exact List.mem_cons_of_mem hd h

theorem maxBid_attained (bids : List (String × ℚ)) (hb : bids ≠ []) :
    ∃ p ∈ bids, p.2 = maxBid bids := by
  match bids with
  | b :: r =>
    show ∃ p ∈ b :: r, p.2 = (r.map Prod.snd).foldl max b.2
    rcases foldl_max_mem (r.map Prod.snd) b.2 with h | h
    · exact ⟨b, List.mem_cons_self b r, h.symm⟩
    · obtain ⟨p, hp, hpv⟩ := List.mem_map.mp h
      exact ⟨p, List.mem_cons_of_mem b hp, hpv⟩

theorem maxBid_ge (bids : List (String × ℚ)) :
    ∀ q ∈ bids, q.2 ≤ maxBid bids := by
  match bids with
  | [] => intro q hq; cases hq
  | b :: r =>
    intro q hq
    show q.2 ≤ (r.map Prod.snd).foldl max b.2
    rcases List.mem_cons.mp hq with h | h
    · subst h; exact (le_foldl_max (r.map Prod.snd) q.2).1
    · exact (le_foldl_max (r.map Prod.snd) b.2).2 q.2 (List.mem_map_of_mem Prod.snd h)

theorem mem_maxBidders (s : String) (bids : List (String × ℚ)) :
    s ∈ maxBidders bids ↔ ∃ b, (s, b) ∈ bids ∧ b = maxBid bids := by
  simp only [maxBidders, List.mem_map, List.mem_filter, decide_eq_true_eq]
  constructor
  · rintro ⟨p, ⟨hp, hpv⟩, hps⟩
    refine ⟨p.2, ?_, hpv⟩
    rw [← hps]
    simpa using hp
  · rintro ⟨b, hb, hbv⟩
    exact ⟨(s, b), ⟨hb, hbv⟩, rfl⟩

theorem maxBidders_ne_nil (bids : List (String × ℚ)) (hb : bids ≠ []) :
    maxBidders bids ≠ [] := by
  obtain ⟨p, hp, hpv⟩ := maxBid_attained bids hb
  intro hnil
  have : p.1 ∈ maxBidders bids := (mem_maxBidders p.1 bids).mpr ⟨p.2, by simpa using hp, hpv⟩
  rw [hnil] at this
  cases this

/-! ## Claim theorems on the core -/

/-- C3: the selected speaker always carries the round's maximum bid; if
the GM is among the maximum bidders it is always the one chosen;
otherwise the speaker is the tied bidder at index `pick mod n` — the
draw of the (seedable, hence reproducible) generator — and as the draw
ranges over the residues every tied bidder is selected, and none other. -/
theorem claim_C3_speaker_selection (pick : Nat) (bids : List (String × ℚ))
    (hb : bids ≠ []) :
    (∃ s, selectSpeaker pick bids = some s ∧
        ∃ b, (s, b) ∈ bids ∧ b = maxBid bids ∧ ∀ q ∈ bids, q.2 ≤ b) ∧
    ("GM" ∈ maxBidders bids → selectSpeaker pick bids = some "GM") ∧
    ("GM" ∉ maxBidders bids → ∀ i, i < (maxBidders bids).length →
        selectSpeaker i bids = (maxBidders bids)[i]?) := by
  have hlen : 0 < (maxBidders bids).length :=
    List.length_pos.mpr (maxBidders_ne_nil bids hb)
  refine ⟨?_, ?_, ?_⟩
  · by_cases hGM : (maxBidders bids).contains "GM"
    · refine ⟨"GM", ?_, ?_⟩
      · show (if (maxBidders bids).contains "GM" then some "GM"
            else (maxBidders bids)[pick % (maxBidders bids).length]?) = some "GM"
        rw [hGM]
        rfl
      · obtain ⟨b, hbm, hbv⟩ :=
          (mem_maxBidders "GM" bids).mp (List.mem_of_elem_eq_true hGM)
        exact ⟨b, hbm, hbv, fun q hq => hbv ▸ maxBid_ge bids q hq⟩
    · have hc : (maxBidders bids).contains "GM" = false := by
        rw [Bool.eq_false_iff]
        intro hcon
        exact hGM hcon
      have hmod : pick % (maxBidders bids).length < (maxBidders bids).length :=
        Nat.mod_lt pick hlen
      refine ⟨(maxBidders bids)[pick % (maxBidders bids).length], ?_, ?_⟩
      · show (if (maxBidders bids).contains "GM" then some "GM"
            else (maxBidders bids)[pick % (maxBidders bids).length]?) =
          some ((maxBidders bids)[pick % (maxBidders bids).length])
        rw [hc, List.getElem?_eq_getElem hmod]
        rfl
      · have hmem : (maxBidders bids)[pick % (maxBidders bids).length] ∈ maxBidders bids :=
          List.getElem_mem hmod
        obtain ⟨b, hbm, hbv⟩ := (mem_maxBidders _ bids).mp hmem
        exact ⟨b, hbm, hbv, fun q hq => hbv ▸ maxBid_ge bids q hq⟩
  · intro hGM
    have hc : (maxBidders bids).contains "GM" = true := List.elem_eq_true_of_mem hGM
    show (if (maxBidders bids).contains "GM" then some "GM"
        else (maxBidders bids)[pick % (maxBidders bids).length]?) = some "GM"
    rw [hc]
    rfl
  · intro hGM i hi
    have hc : (maxBidders bids).contains "GM" = false := by
      rw [Bool.eq_false_iff]
      intro hcon
      exact hGM (List.mem_of_elem_eq_true hcon)
    show (if (maxBidders bids).contains "GM" then some "GM"
        else (maxBidders bids)[i % (maxBidders bids).length]?) = (maxBidders bids)[i]?
    rw [hc, Nat.mod_eq_of_lt hi]
    rfl

/-- Witness for C3: on the tied bids `P1 = P2 = 1 > P3 = 0` the theorem
delivers a speaker with the maximum bid. -/
theorem claim_C3_witness :
    ∃ s, selectSpeaker 1 bidsW = some s ∧
      ∃ b, (s, b) ∈ bidsW ∧ b = maxBid bidsW ∧ ∀ q ∈ bidsW, q.2 ≤ b :=
  (claim_C3_speaker_selection 1 bidsW (by decide)).1

end Core

namespace Core

/-! ## Decision-contract lemmas and claims -/

theorem validateResponse_bid_bounds (j : JVal) (d : Decision)
    (h : validateResponse j = some d) : 0 ≤ d.bid ∧ d.bid ≤ 1 := by
  cases j <;> simp only [validateResponse] at h <;> try cases h
  case obj fields =>
    split at h
    · split at h
      · rename_i hq
        split at h
        · cases h
          exact hq
        · cases h
          exact hq
        · cases h
      · cases h
    · cases h

theorem decide_async_bid_bounds (o : OracleOutcome) :
    0 ≤ (decide_async o).bid ∧ (decide_async o).bid ≤ 1 := by
  cases o with
  | timeout =>
    show (0 : ℚ) ≤ 0 ∧ (0 : ℚ) ≤ 1
    norm_num
  | invalidJson =>
    show (0 : ℚ) ≤ 0 ∧ (0 : ℚ) ≤ 1
    norm_num
  | json j =>
    cases hv : validateResponse j with
    | none =>
      show 0 ≤ ((validateResponse j).getD safeDefault).bid ∧
        ((validateResponse j).getD safeDefault).bid ≤ 1
      rw [hv]
      show (0 : ℚ) ≤ 0 ∧ (0 : ℚ) ≤ 1
      norm_num
    | some d =>
      show 0 ≤ ((validateResponse j).getD safeDefault).bid ∧
        ((validateResponse j).getD safeDefault).bid ≤ 1
      rw [hv]
      exact validateResponse_bid_bounds j d hv

/-- C2: whenever the oracle round-trip fails — the awaited call raised
(timeout), the reply was not JSON, or the JSON failed the strict shape
validation — `decide_async` returns exactly the safe default decision
with bid 0.0 and empty message; being a total function it raises
nothing, and every participant still contributes a bid to the round. -/
theorem claim_C2_failure_safe_default (o : OracleOutcome) (h : decisionFailure o) :
    decide_async o =
      { bid := 0, msg := "", toField := "ALL",
        reason := "Error in response generation" } ∧
    ∀ outs : List (String × OracleOutcome), (roundBids outs).length = outs.length := by
  refine ⟨?_, fun outs => by simp [roundBids]⟩
  cases o with
  | timeout => rfl
  | invalidJson => rfl
  | json j =>
    have hv : validateResponse j = none := h
    show (validateResponse j).getD safeDefault = _
    rw [hv]
    rfl

/-- Witness for C2: a non-object oracle reply fails validation and the
decision used is the safe default. -/
theorem claim_C2_witness :
    decide_async (.json (.str "I cannot produce JSON today")) =
      { bid := 0, msg := "", toField := "ALL",
        reason := "Error in response generation" } :=
  (claim_C2_failure_safe_default (.json (.str "I cannot produce JSON today")) rfl).1

/-- C8 counterexample: the oracle returns a well-shaped decision whose
bid 2.0 lies outside [0,1].  The claim says the bid is clamped (which
would give the decision bid 1 and keep the message "hi"); the code
instead rejects the whole response in validation and substitutes the
safe default with bid 0 and empty message. -/
theorem claim_C8_counterexample :
    decide_async (.json jBid2) = safeDefault ∧
    (decide_async (.json jBid2)).bid = 0 ∧
    ¬ ((decide_async (.json jBid2)).bid = 1 ∧
        (decide_async (.json jBid2)).msg = "hi") := by
  refine ⟨rfl, rfl, ?_⟩
  rintro ⟨h1, -⟩
  have h0 : (decide_async (.json jBid2)).bid = 0 := rfl
  rw [h0] at h1
  norm_num at h1

/-- C8 corrected: the bid is validated against [0,1], not clamped — an
out-of-range bid makes the whole response fail validation and be
replaced by the safe default (bid 0) — so every bid entering speaker
selection lies in [0,1], and the round always proceeds with one bid per
participant. -/
theorem claim_C8_bids_in_range :
    (∀ (outs : List (String × OracleOutcome)) (name : String) (b : ℚ),
        (name, b) ∈ roundBids outs → 0 ≤ b ∧ b ≤ 1) ∧
    (∀ outs : List (String × OracleOutcome), (roundBids outs).length = outs.length) := by
  constructor
  · intro outs name b hmem
    simp only [roundBids, List.mem_map] at hmem
    obtain ⟨p, _, hp⟩ := hmem
    have hb : (decide_async p.2).bid = b := congrArg Prod.snd hp
    rw [← hb]
    exact decide_async_bid_bounds p.2
  · intro outs
    simp [roundBids]

/-- Witness for C8's corrected statement: the bid of a valid response
enters the round and is certified inside [0,1]. -/
theorem claim_C8_witness : 0 ≤ (1 : ℚ) ∧ (1 : ℚ) ≤ 1 :=
  claim_C8_bids_in_range.1 outsW "P1" 1 (by decide)

end Core

namespace Core

/-! ## Routing lemmas and claims -/

theorem deliver_sysMem (names : List String) (turn : Nat)
    (speaker toField msg : String) (st : CoreState) :
    (deliver names turn speaker toField msg st).sysMem =
      st.sysMem ++ (sysEntry names (turn, speaker, toField, msg)).toList := by
  unfold deliver sysEntry
  by_cases h1 : pyStrip msg = ""
  · rw [if_pos h1, if_pos h1]
    simp
  · rw [if_neg h1, if_neg h1]
    by_cases h2 : (normalizeRecipients names (splitRecipients toField)).contains "ALL"
    · rw [if_pos h2, if_pos h2]
      simp
    · rw [if_neg h2, if_neg h2]
      simp

theorem runDeliver_sysMem (names : List String) :
    ∀ (steps : List (Nat × String × String × String)) (st : CoreState),
      (runDeliver names st steps).sysMem =
        st.sysMem ++ steps.filterMap (sysEntry names) := by
  intro steps
  induction steps with
  | nil => intro st; simp [runDeliver]
  | cons hd tl ih =>
    intro st
    show (runDeliver names (deliver names hd.1 hd.2.1 hd.2.2.1 hd.2.2.2 st) tl).sysMem = _
    rw [ih, deliver_sysMem]
    cases hs : sysEntry names hd with
    | none => simp [List.filterMap_cons, hs]
    | some e => simp [List.filterMap_cons, hs]

theorem foldl_memAppend_notmem (turn : Nat) (speaker utter : String) :
    ∀ (rs : List String) (m : String → List MemEntry) (x : String), ¬ x ∈ rs →
      (rs.foldl (fun m r => memAppend m r ⟨turn, speaker, r, utter⟩) m) x = m x := by
  intro rs
  induction rs with
  | nil => intro m x _; rfl
  | cons hd tl ih =>
    intro m x hx
    rw [List.foldl_cons]
    rw [ih _ x (fun hmem => hx (List.mem_cons_of_mem hd hmem))]
    unfold memAppend
    rw [if_neg (fun hxe : x = hd => hx (by rw [hxe]; exact List.mem_cons_self hd tl))]

/-- C4 counterexample: one committed direct message from P1 to P2 never
reaches the GM's memory, although the GM is an Authority-class
participant and the message was committed (it is in the DM log and in
P2's memory). -/
theorem claim_C4_counterexample :
    (deliver ["P1", "P2", "P3"] 1 "P1" "P2" "psst" emptyCore).mems "GM" = [] ∧
    (deliver ["P1", "P2", "P3"] 1 "P1" "P2" "psst" emptyCore).dmLog =
      [(1, "P1", "P2", "psst")] ∧
    (deliver ["P1", "P2", "P3"] 1 "P1" "P2" "psst" emptyCore).mems "P2" =
      [⟨1, "P1", "P2", "psst"⟩] := by
  refine ⟨rfl, rfl, rfl⟩

/-- C4 corrected: the System agent's memory receives every committed
message of any sequence of rounds (public or direct); broadcast messages
are appended to every participant's memory including the GM's; but a
direct message reaches the GM only when the GM is the sender or a named
recipient — the GM is not an omniscient observer of third-party DMs. -/
theorem claim_C4_routing :
    (∀ (names : List String) (st : CoreState)
        (steps : List (Nat × String × String × String)),
        (runDeliver names st steps).sysMem =
          st.sysMem ++ steps.filterMap (sysEntry names)) ∧
    (∀ (names : List String) (turn : Nat) (speaker toField msg : String)
        (st : CoreState) (a : String),
        (normalizeRecipients names (splitRecipients toField)).contains "ALL" = true →
        pyStrip msg ≠ "" →
        (names ++ ["GM"]).contains a = true →
        (deliver names turn speaker toField msg st).mems a =
          st.mems a ++ [⟨turn, speaker, "ALL", pyStrip msg⟩]) ∧
    (∀ (names : List String) (turn : Nat) (speaker toField msg : String)
        (st : CoreState),
        (normalizeRecipients names (splitRecipients toField)).contains "ALL" = false →
        speaker ≠ "GM" →
        ¬ "GM" ∈ normalizeRecipients names (splitRecipients toField) →
        (deliver names turn speaker toField msg st).mems "GM" = st.mems "GM") := by
  refine ⟨fun names st steps => runDeliver_sysMem names steps st, ?_, ?_⟩
  · intro names turn speaker toField msg st a hall hne ha
    unfold deliver
    rw [if_neg hne, if_pos hall]
    show (if (names ++ ["GM"]).contains a then _ else _) = _
    rw [ha]
    rfl
  · intro names turn speaker toField msg st hall hsp hgm
    unfold deliver
    by_cases hne : pyStrip msg = ""
    · rw [if_pos hne]
    · rw [if_neg hne, if_neg (by rw [hall]; intro h; cases h)]
      show ((normalizeRecipients names (splitRecipients toField)).foldl
          (fun m r => memAppend m r ⟨turn, speaker, r, pyStrip msg⟩)
          (memAppend st.mems speaker
            ⟨turn, speaker,
              String.intercalate "," (normalizeRecipients names (splitRecipients toField)),
              pyStrip msg⟩)) "GM" = st.mems "GM"
      rw [foldl_memAppend_notmem turn speaker (pyStrip msg) _ _ "GM" hgm]
      unfold memAppend
      rw [if_neg (fun h => hsp h.symm)]

/-- Witness for C4's corrected statement: a broadcast lands in the GM's
memory. -/
theorem claim_C4_witness :
    (deliver ["P1", "P2"] 1 "P1" "ALL" " hi " emptyCore).mems "GM" =
      [⟨1, "P1", "ALL", "hi"⟩] := by
  have h := claim_C4_routing.2.1 ["P1", "P2"] 1 "P1" "ALL" " hi " emptyCore "GM"
    (by decide) (by decide) (by decide)
  rw [h]
  rfl

/-- C6: when the named recipient set of the winning decision equals the
full roster (as a set), the recipient list is normalised to `["ALL"]`
and the message is committed as a public broadcast: the public log
grows, the DM log does not. -/
theorem claim_C6_roster_collapse (names : List String) (turn : Nat)
    (speaker toField msg : String) (st : CoreState)
    (_hsub : (splitRecipients toField).all (fun x => names.contains x) = true)
    (hsup : names.all (fun n => (splitRecipients toField).contains n) = true) :
    normalizeRecipients names (splitRecipients toField) = ["ALL"] ∧
    (pyStrip msg ≠ "" →
      (deliver names turn speaker toField msg st).dmLog = st.dmLog ∧
      (deliver names turn speaker toField msg st).publicLog =
        st.publicLog ++ [(turn, speaker ++ ": " ++ pyStrip msg)]) := by
  have hnorm : normalizeRecipients names (splitRecipients toField) = ["ALL"] := by
    unfold normalizeRecipients
    rw [if_pos hsup]
  refine ⟨hnorm, fun hne => ?_⟩
  unfold deliver
  rw [if_neg hne, if_pos (by rw [hnorm]; rfl)]
  exact ⟨rfl, rfl⟩

/-- Witness for C6: the recipient field "P2, P1" names exactly the
roster ["P1", "P2"], so the message goes to the public log and no DM is
recorded. -/
theorem claim_C6_witness :
    normalizeRecipients ["P1", "P2"] (splitRecipients "P2, P1") = ["ALL"] ∧
    (deliver ["P1", "P2"] 2 "P1" "P2, P1" "vote now" emptyCore).dmLog = [] ∧
    (deliver ["P1", "P2"] 2 "P1" "P2, P1" "vote now" emptyCore).publicLog =
      [(2, "P1: vote now")] := by
  have h := claim_C6_roster_collapse ["P1", "P2"] 2 "P1" "P2, P1" "vote now" emptyCore
    (by decide) (by decide)
  obtain ⟨h1, h2⟩ := h
  obtain ⟨hdm, hpub⟩ := h2 (by decide)
  exact ⟨h1, by rw [hdm]; rfl, by rw [hpub]; rfl⟩

end Core
